import Mathlib

/-!
Verification of the StudyMate Flask backend (src/app.py).

The file shallowly embeds the routes of app.py that the specification's
claims are about — the keyword ranking step of `/ask`, `/upload`,
`/gemini_chat`, `/history/<username>` and `/history/<source>/<chat_id>` —
and proves or refutes each claim.

Python string operations (`lower`, `strip`, `split`, substring `in`,
`isdigit`, `int`) are embedded structurally over `List Char` so that every
definition evaluates inside the kernel.  The MongoDB collections are
embedded as lists in insertion order (Mongo's natural order for the
queries app.py performs), and the Gemini model call as an explicit
function argument `gen : String → Except String String`.
-/

/-! ### Python string primitives -/

/-- Python `s.lower()` (ASCII case folding, which is all app.py's data needs). -/
def pyLower (s : String) : String := ⟨s.data.map Char.toLower⟩

/-- Python `s.strip()`: drop leading and trailing whitespace. -/
def pyStrip (s : String) : String :=
  ⟨((s.data.dropWhile Char.isWhitespace).reverse.dropWhile Char.isWhitespace).reverse⟩

/-- Split a character list at every character satisfying `p`; pieces may be empty,
matching Python `str.split(sep)` semantics on single characters. -/
def charSplit (p : Char → Bool) : List Char → List (List Char)
  | [] => [[]]
  | c :: t =>
    let r := charSplit p t
    if p c then [] :: r
    else
      match r with
      | [] => [[c]]
      | x :: xs => (c :: x) :: xs

/-- Python `s.split()` with no argument: split on whitespace runs and drop
empty pieces. -/
def pySplitWs (s : String) : List String :=
  ((charSplit Char.isWhitespace s.data).filter (fun w => !w.isEmpty)).map String.mk

/-- Python `needle in hay` on strings: substring containment
(`strContains needle hay` at the character-list level). -/
def strContains (needle : List Char) : List Char → Bool
  | [] => needle.isEmpty
  | c :: t => needle.isPrefixOf (c :: t) || strContains needle t

/-- Python `needle in hay` on `String`. -/
def pyIn (needle hay : String) : Bool := strContains needle.data hay.data

/-- Python `s.isdigit()` (ASCII digits): nonempty and all characters digits. -/
def pyIsDigit (s : String) : Bool := !s.data.isEmpty && s.data.all Char.isDigit

/-- Python `int(s)` for the all-digit strings on which app.py calls it. -/
def pyInt (s : String) : Nat := s.data.foldl (fun n c => n * 10 + (c.toNat - 48)) 0

/-- Hex digit check, as accepted by `bson.ObjectId` for 24-character strings. -/
def hexDigit (c : Char) : Bool :=
  c.isDigit || ('a' ≤ c && c ≤ 'f') || ('A' ≤ c && c ≤ 'F')

/-- `bson.ObjectId(s)` succeeds on a `str` exactly when it is 24 hex characters. -/
def isValidObjectId (s : String) : Bool := s.data.length == 24 && s.data.all hexDigit

/-- Byte-order comparison of id strings, as Mongo compares ObjectIds. -/
def charListLt : List Char → List Char → Bool
  | [], [] => false
  | [], _ :: _ => true
  | _ :: _, [] => false
  | a :: as, b :: bs => a < b || (a == b && charListLt as bs)

/-- Order on record id strings used by `collection.find().sort(sorting-key, 1)`. -/
def idLt (a b : String) : Bool := charListLt a.data b.data

/-! ### Stable sorting

Python's `list.sort` / `sorted` are stable, also with `reverse=True`
(the documented semantics app.py relies on).  The insertion sorts below
implement exactly that order: a newly placed element goes after every
already-placed element that does not compare strictly after it. -/

/-- Insert `x` before the first element with strictly smaller key: the
position a stable descending-by-key sort gives it. -/
def insertDescBy {α : Type u_1} (k : α → Nat) (x : α) : List α → List α
  | [] => [x]
  | y :: ys => if k y < k x then x :: y :: ys else y :: insertDescBy k x ys

/-- Python `l.sort(key=k, reverse=True)`: stable descending sort by key. -/
def sortDescBy {α : Type u_1} (k : α → Nat) (l : List α) : List α :=
  l.foldl (fun acc x => insertDescBy k x acc) []

/-- Insert `x` before the first element it compares strictly below. -/
def insertAscBy {α : Type u_1} (lt : α → α → Bool) (x : α) : List α → List α
  | [] => [x]
  | y :: ys => if lt x y then x :: y :: ys else y :: insertAscBy lt x ys

/-- `collection.find().sort(sorting-key, 1)`: stable ascending sort. -/
def sortAscBy {α : Type u_1} (lt : α → α → Bool) (l : List α) : List α :=
  l.foldl (fun acc x => insertAscBy lt x acc) []

section SortLemmas

variable {α : Type u_1} {k : α → Nat} {lt : α → α → Bool}

theorem insertDescBy_perm (k : α → Nat) (x : α) (l : List α) :
    (insertDescBy k x l).Perm (x :: l) := by
  induction l with
  | nil => simp [insertDescBy]
  | cons y ys ih =>
    by_cases h : k y < k x
    · simp [insertDescBy, h]
    · simp only [insertDescBy, if_neg h]
      exact (ih.cons y).trans (List.Perm.swap x y ys)

theorem mem_insertDescBy {a x : α} {l : List α} :
    a ∈ insertDescBy k x l ↔ a = x ∨ a ∈ l := by
  rw [(insertDescBy_perm k x l).mem_iff, List.mem_cons]

theorem insertDescBy_pairwise {x : α} {l : List α}
    (hl : l.Pairwise (fun a b => k b ≤ k a)) :
    (insertDescBy k x l).Pairwise (fun a b => k b ≤ k a) := by
  induction l with
  | nil => simp [insertDescBy]
  | cons y ys ih =>
    rw [List.pairwise_cons] at hl
    obtain ⟨hy, hys⟩ := hl
    by_cases h : k y < k x
    · simp only [insertDescBy, if_pos h]
      refine List.pairwise_cons.mpr ⟨?_, List.pairwise_cons.mpr ⟨hy, hys⟩⟩
      intro z hz
      rcases List.mem_cons.mp hz with hz | hz
      · exact hz ▸ le_of_lt h
      · exact (hy z hz).trans (le_of_lt h)
    · simp only [insertDescBy, if_neg h]
      refine List.pairwise_cons.mpr ⟨?_, ih hys⟩
      intro z hz
      rcases mem_insertDescBy.mp hz with hz | hz
      · exact hz ▸ Nat.le_of_not_lt h
      · exact hy z hz

theorem insertDescBy_filter_key {x : α} {l : List α} (t : Nat)
    (hl : l.Pairwise (fun a b => k b ≤ k a)) :
    (insertDescBy k x l).filter (fun z => k z == t) =
      l.filter (fun z => k z == t) ++ if k x == t then [x] else [] := by
  induction l with
  | nil =>
    by_cases h : k x == t <;> simp [insertDescBy, List.filter_cons, h]
  | cons y ys ih =>
    rw [List.pairwise_cons] at hl
    obtain ⟨hy, hys⟩ := hl
    by_cases h : k y < k x
    · simp only [insertDescBy, if_pos h]
      by_cases hxt : k x = t
      · have hnone : ∀ z ∈ y :: ys, ¬((fun z => k z == t) z = true) := by
          intro z hz
          have hzy : k z ≤ k y := by
            rcases List.mem_cons.mp hz with hz | hz
            · exact hz ▸ le_rfl
            · exact hy z hz
          have : k z < t := hxt ▸ lt_of_le_of_lt hzy h
          simp [Nat.ne_of_lt this]
        rw [List.filter_eq_nil_iff.mpr hnone]
        have hxtb : (k x == t) = true := beq_iff_eq.mpr hxt
        simp [List.filter_cons, hxtb, List.filter_eq_nil_iff.mpr hnone]
      · have hxtb : (k x == t) = false := by simpa using hxt
        simp [List.filter_cons, hxtb]
    · simp only [insertDescBy, if_neg h]
      by_cases hyt : k y == t <;>
        simp [List.filter_cons, hyt, ih hys, List.append_assoc]

theorem foldl_insertDescBy_perm (k : α → Nat) (l acc : List α) :
    (l.foldl (fun acc x => insertDescBy k x acc) acc).Perm (acc ++ l) := by
  induction l generalizing acc with
  | nil => simp
  | cons x xs ih =>
    simp only [List.foldl_cons]
    refine (ih (insertDescBy k x acc)).trans ?_
    refine (((insertDescBy_perm k x acc).append_right xs).trans ?_)
    exact (List.perm_middle).symm

theorem foldl_insertDescBy_pairwise (k : α → Nat) (l : List α) {acc : List α}
    (hacc : acc.Pairwise (fun a b => k b ≤ k a)) :
    (l.foldl (fun acc x => insertDescBy k x acc) acc).Pairwise
      (fun a b => k b ≤ k a) := by
  induction l generalizing acc with
  | nil => simpa
  | cons x xs ih =>
    simp only [List.foldl_cons]
    exact ih (insertDescBy_pairwise hacc)

theorem foldl_insertDescBy_filter (k : α → Nat) (l : List α) (t : Nat) {acc : List α}
    (hacc : acc.Pairwise (fun a b => k b ≤ k a)) :
    (l.foldl (fun acc x => insertDescBy k x acc) acc).filter (fun z => k z == t) =
      acc.filter (fun z => k z == t) ++ l.filter (fun z => k z == t) := by
  induction l generalizing acc with
  | nil => simp
  | cons x xs ih =>
    simp only [List.foldl_cons]
    rw [ih (insertDescBy_pairwise hacc), insertDescBy_filter_key t hacc]
    by_cases h : k x == t <;> simp [List.filter_cons, h, List.append_assoc]

theorem sortDescBy_perm (k : α → Nat) (l : List α) : (sortDescBy k l).Perm l := by
  simpa using foldl_insertDescBy_perm k l []

theorem sortDescBy_pairwise (k : α → Nat) (l : List α) :
    (sortDescBy k l).Pairwise (fun a b => k b ≤ k a) :=
  foldl_insertDescBy_pairwise k l List.Pairwise.nil

theorem sortDescBy_filter_key (k : α → Nat) (l : List α) (t : Nat) :
    (sortDescBy k l).filter (fun z => k z == t) = l.filter (fun z => k z == t) := by
  simpa using @foldl_insertDescBy_filter _ k l t [] List.Pairwise.nil

theorem insertAscBy_perm (lt : α → α → Bool) (x : α) (l : List α) :
    (insertAscBy lt x l).Perm (x :: l) := by
  induction l with
  | nil => simp [insertAscBy]
  | cons y ys ih =>
    by_cases h : lt x y
    · simp [insertAscBy, h]
    · simp only [insertAscBy, if_neg h]
      exact (ih.cons y).trans (List.Perm.swap x y ys)

theorem foldl_insertAscBy_perm (lt : α → α → Bool) (l acc : List α) :
    (l.foldl (fun acc x => insertAscBy lt x acc) acc).Perm (acc ++ l) := by
  induction l generalizing acc with
  | nil => simp
  | cons x xs ih =>
    simp only [List.foldl_cons]
    refine (ih (insertAscBy lt x acc)).trans ?_
    refine ((insertAscBy_perm lt x acc).append_right xs).trans ?_
    exact (List.perm_middle).symm

theorem sortAscBy_perm (lt : α → α → Bool) (l : List α) : (sortAscBy lt l).Perm l := by
  simpa using foldl_insertAscBy_perm lt l []

theorem sortAscBy_length (lt : α → α → Bool) (l : List α) :
    (sortAscBy lt l).length = l.length :=
  (sortAscBy_perm lt l).length_eq

theorem insertAscBy_append {x : α} {acc : List α}
    (h : ∀ y ∈ acc, lt x y = false) : insertAscBy lt x acc = acc ++ [x] := by
  induction acc with
  | nil => simp [insertAscBy]
  | cons y ys ih =>
    have hy : lt x y = false := h y (List.mem_cons_self y ys)
    simp only [insertAscBy, hy, Bool.false_eq_true, if_false, List.cons_append]
    rw [ih fun z hz => h z (List.mem_cons_of_mem y hz)]

theorem foldl_insertAscBy_eq (lt : α → α → Bool) (l : List α) {acc : List α}
    (h : (acc ++ l).Pairwise (fun a b => lt b a = false)) :
    l.foldl (fun acc x => insertAscBy lt x acc) acc = acc ++ l := by
  induction l generalizing acc with
  | nil => simp
  | cons x xs ih =>
    simp only [List.foldl_cons]
    have hx : ∀ y ∈ acc, lt x y = false := by
      intro y hy
      exact ((List.pairwise_append.mp h).2.2 y hy x (List.mem_cons_self x xs))
    rw [insertAscBy_append hx, ih]
    · simp
    · simpa [List.append_assoc] using h

theorem sortAscBy_eq_self {l : List α}
    (h : l.Pairwise (fun a b => lt b a = false)) : sortAscBy lt l = l := by
  simpa using @foldl_insertAscBy_eq _ lt l [] (by simpa)

end SortLemmas

theorem charListLt_irrefl : ∀ as : List Char, charListLt as as = false
  | [] => rfl
  | a :: as => by
    simp [charListLt, charListLt_irrefl as]

theorem charListLt_asymm :
    ∀ as bs : List Char, charListLt as bs = true → charListLt bs as = false
  | [], [] => by simp [charListLt]
  | [], _ :: _ => by
    intro ha
    rfl
  | _ :: _, [] => by simp [charListLt]
  | a :: as, b :: bs => by
    intro h
    simp only [charListLt, Bool.or_eq_true, Bool.and_eq_true, beq_iff_eq] at h
    rcases h with h | ⟨rfl, h⟩
    · have hab : a < b := of_decide_eq_true h
      have h1 : ¬ b < a := lt_asymm hab
      have h2 : (b == a) = false := by simpa using (ne_of_gt hab)
      simp [charListLt, h1, h2]
    · simp [charListLt, charListLt_asymm as bs h]

theorem idLt_asymm {a b : String} (h : idLt a b = true) : idLt b a = false :=
  charListLt_asymm a.data b.data h

theorem ne_of_idLt {a b : String} (h : idLt a b = true) : a ≠ b := by
  intro hab
  subst hab
  rw [idLt, charListLt_irrefl] at h
  exact Bool.false_ne_true h

theorem erasePKeyEq {α : Type u_1} (k : α → String) :
    ∀ (l : List α) (i : Nat) (h : i < l.length),
      l.Pairwise (fun a b => k a ≠ k b) →
      l.eraseP (fun r => k r == k (l.get ⟨i, h⟩)) = l.eraseIdx i
  | x :: xs, 0, h, _ => by
    simp [List.eraseP_cons]
  | x :: xs, i + 1, h, hp => by
    rw [List.pairwise_cons] at hp
    obtain ⟨hx, hxs⟩ := hp
    have hi : i < xs.length := Nat.lt_of_succ_lt_succ h
    have hget : (x :: xs).get ⟨i + 1, h⟩ = xs.get ⟨i, hi⟩ := rfl
    have hne : (k x == k (xs.get ⟨i, hi⟩)) = false := by
      simpa using hx (xs.get ⟨i, hi⟩) (xs.get_mem _ _)
    rw [hget, List.eraseP_cons, hne]
    simp only [cond_false, List.eraseIdx_cons_succ, List.cons.injEq, true_and]
    exact erasePKeyEq k xs i hi hxs

/-! ### Data model

The Mongo collections of app.py, as lists in insertion order.  `_id`
values that Mongo generates are modelled as `id : String` fields holding
the 24-character lowercase hex form; insert routes receive the freshly
generated id as an explicit argument. -/

/-- A document of `paragraphs_col` (`/upload`, line 55). -/
structure ParaDoc where
  username : String
  index : Nat
  text : String
deriving DecidableEq

/-- A document of `db["chats"]` (`/ask`, line 157). -/
structure ChatRecord where
  id : String
  username : String
  question : String
  answer : String
  matched_paragraphs : List String
  timestamp : Option Nat
deriving DecidableEq

/-- A document of `db["gemini_chats"]` (`/gemini_chat`, line 103). -/
structure GeminiChatRecord where
  id : String
  username : String
  question : String
  answer : String
  timestamp : Option Nat
deriving DecidableEq

/-- The persistent state: the three collections app.py touches. -/
structure AppState where
  paragraphs_col : List ParaDoc
  chats_col : List ChatRecord
  gemini_chats_col : List GeminiChatRecord
deriving DecidableEq

/-- The structured errors the routes return (each carrying its HTTP meaning). -/
inductive ApiError where
  /-- 400, "Username required" / "Question and username are required" / ... -/
  | validationErr (msg : String)
  /-- 404, "No content found for this user" -/
  | noContent
  /-- 500, "Gemini API Error: <e>" with `e` the upstream error text -/
  | modelErr (e : String)
  /-- 400, "Invalid source. Use 'pdf' or 'gemini'." -/
  | invalidSource
  /-- 404, "Invalid chat index" -/
  | invalidIndex
  /-- 404, "Chat not found" -/
  | chatNotFound
deriving DecidableEq

/-- The 404 outcomes of `delete_history` (the spec's `NotFoundError`). -/
def ApiError.isDeleteNotFound : ApiError → Bool
  | .invalidIndex => true
  | .chatNotFound => true
  | _ => false

/-- The JSON body a successful `/ask` returns (lines 165-168). -/
structure AskResponse where
  answer : String
  matched_paragraphs : List String
deriving DecidableEq

/-! ### The retrieval pipeline of `/ask` (lines 131-148) -/

/-- Line 132: `keywords = question.lower().split()`. -/
def tokenize (question : String) : List String := pySplitWs (pyLower question)

/-- Line 135: `score = sum(word in para.lower() for word in keywords)` —
each keyword contributes 1 when it occurs as a substring of the
lower-cased paragraph, duplicates counted independently. -/
def paraScore (keywords : List String) (para : String) : Nat :=
  keywords.countP (fun word => pyIn word (pyLower para))

/-- Lines 133-137: the `(para, score)` pairs with positive score, in corpus order. -/
def scoredParas (keywords : List String) (all_paragraphs : List String) :
    List (String × Nat) :=
  (all_paragraphs.map (fun para => (para, paraScore keywords para))).filter
    (fun x => 0 < x.2)

/-- Lines 131-140, the ranking step of `/ask`: score, keep positive scores,
stable-sort descending (`scored.sort(key=lambda x: x[1], reverse=True)`),
take 3; fall back to the first 3 corpus paragraphs when nothing scored. -/
def rankStep (question : String) (all_paragraphs : List String) : List String :=
  let keywords := tokenize question
  let scored := scoredParas keywords all_paragraphs
  if scored = [] then all_paragraphs.take 3
  else ((sortDescBy Prod.snd scored).take 3).map Prod.fst

/-- Python `"sep".join(l)`. -/
def pyJoin (sep : String) : List String → String
  | [] => ""
  | [x] => x
  | x :: y :: t => x ++ sep ++ pyJoin sep (y :: t)

/-- Lines 142-148: the context block and instruction template around the question. -/
def assemblePrompt (question : String) (top_paragraphs : List String) : String :=
  "Answer the question using only the following context. Do not use external knowledge.\n\nContext:\n"
    ++ pyJoin "\n\n" top_paragraphs ++ "\n\nQuestion: " ++ question

/-- The paragraph texts stored for a user, in stored order
(line 125 `paragraphs_col.find({"username": ...})` + line 129). -/
def corpusTexts (st : AppState) (username : String) : List String :=
  (st.paragraphs_col.filter (fun d => d.username == username)).map (fun d => d.text)

/-! ### Routes -/

/-- `/ask` (lines 116-168).  `gen` is the Gemini call
(`model.generate_content`), `now` the clock (`time.time()`), `newId` the
`_id` Mongo generates for the inserted record. -/
def ask_question (gen : String → Except String String) (now : Nat) (newId : String)
    (st : AppState) (question username : String) :
    Except ApiError AskResponse × AppState :=
  let q := pyStrip question
  let u := pyStrip username
  if q = "" ∨ u = "" then
    (.error (.validationErr "Question and username are required"), st)
  else if st.paragraphs_col.filter (fun d => d.username == u) = [] then
    (.error .noContent, st)
  else
    let all_paragraphs := corpusTexts st u
    let top_paragraphs := rankStep q all_paragraphs
    match gen (assemblePrompt q top_paragraphs) with
    | .error e => (.error (.modelErr e), st)
    | .ok answer =>
      (.ok ⟨answer, top_paragraphs⟩,
        { st with chats_col :=
            st.chats_col ++ [⟨newId, u, q, answer, top_paragraphs, some now⟩] })

/-- `/gemini_chat` (lines 89-113): free-form chat, no retrieval. -/
def gemini_chat (gen : String → Except String String) (now : Nat) (newId : String)
    (st : AppState) (message username : String) :
    Except ApiError String × AppState :=
  let m := pyStrip message
  let u := pyStrip username
  if m = "" ∨ u = "" then
    (.error (.validationErr "Message and username are required"), st)
  else
    match gen m with
    | .error e => (.error (.modelErr e), st)
    | .ok reply =>
      (.ok reply,
        { st with gemini_chats_col :=
            st.gemini_chats_col ++ [⟨newId, u, m, reply, some now⟩] })

/-- The paragraph documents a multi-file upload inserts (lines 52-59):
per file, `enumerate` restarts the index at 0. -/
def uploadDocs (username : String) (files : List (List String)) : List ParaDoc :=
  files.flatMap (fun paras => paras.enum.map (fun ip => ⟨username, ip.1, ip.2⟩))

/-- `/upload` (lines 40-61).  A file is modelled by its extracted paragraph
list (PDF text extraction is external per the spec).  `files = none`
models a request without a `"files"` part.  Note the code order: the
owner's previous paragraphs are deleted (line 47) before the request's
files are validated (line 49). -/
def upload_pdf (username : String) (files : Option (List (List String)))
    (st : AppState) : Except ApiError String × AppState :=
  if username = "" then (.error (.validationErr "Username required"), st)
  else
    let st1 := { st with paragraphs_col :=
      st.paragraphs_col.filter (fun d => !(d.username == username)) }
    match files with
    | none => (.error (.validationErr "No files uploaded"), st1)
    | some fs =>
      (.ok "PDF uploaded and paragraphs stored successfully.",
        { st1 with paragraphs_col := st1.paragraphs_col ++ uploadDocs username fs })

/-- An entry of the merged history listing, tagged with its source
(lines 69-77 set `chat["source"]`). -/
inductive HistEntry where
  | pdf (r : ChatRecord)
  | gemini (r : GeminiChatRecord)
deriving DecidableEq

/-- The timestamp field of a merged entry. -/
def HistEntry.ts : HistEntry → Option Nat
  | .pdf r => r.timestamp
  | .gemini r => r.timestamp

/-- Line 80: `all_chats = pdf_chats + gemini_chats`, each side already
tagged with its source and filtered to the owner. -/
def mergedHistory (st : AppState) (username : String) : List HistEntry :=
  (st.chats_col.filter (fun r => r.username == username)).map HistEntry.pdf
    ++ (st.gemini_chats_col.filter (fun r => r.username == username)).map
        HistEntry.gemini

/-- `/history/<username>` (lines 64-86): merge both collections for the
owner and stable-sort by `x.get("timestamp", 0)` descending. -/
def get_history (st : AppState) (username : String) : List HistEntry :=
  sortDescBy (fun e => e.ts.getD 0) (mergedHistory st username)

/-- The shared body of `/history/<source>/<chat_id>` (lines 217-237) on one
collection: try ObjectId deletion, else fall back to positional deletion
over the whole collection sorted by `_id`, else 404. -/
def deleteFromCol {α : Type u_1} [DecidableEq α] (getId : α → String)
    (chat_id : String) (col : List α) : Except ApiError Unit × List α :=
  if isValidObjectId chat_id ∧ col.any (fun r => getId r == pyLower chat_id) then
    (.ok (), col.eraseP (fun r => getId r == pyLower chat_id))
  else if pyIsDigit chat_id then
    let chats := sortAscBy (fun a b => idLt (getId a) (getId b)) col
    if h : pyInt chat_id < chats.length then
      (.ok (),
        col.eraseP (fun r => getId r == getId (chats.get ⟨pyInt chat_id, h⟩)))
    else (.error .invalidIndex, col)
  else (.error .chatNotFound, col)

/-- `/history/<source>/<chat_id>` DELETE (lines 207-240). -/
def delete_history (st : AppState) (source chat_id : String) :
    Except ApiError Unit × AppState :=
  if source = "pdf" then
    let r := deleteFromCol ChatRecord.id chat_id st.chats_col
    (r.1, { st with chats_col := r.2 })
  else if source = "gemini" then
    let r := deleteFromCol GeminiChatRecord.id chat_id st.gemini_chats_col
    (r.1, { st with gemini_chats_col := r.2 })
  else (.error .invalidSource, st)

deriving instance DecidableEq for Except

/-! ### Facts about the ranking step -/

theorem mem_scoredParas {kw : List String} {paras : List String} {pr : String × Nat} :
    pr ∈ scoredParas kw paras ↔
      pr.1 ∈ paras ∧ pr.2 = paraScore kw pr.1 ∧ 0 < pr.2 := by
  simp only [scoredParas, List.mem_filter, List.mem_map, decide_eq_true_eq]
  constructor
  · rintro ⟨⟨q, hq, rfl⟩, hpos⟩
    exact ⟨hq, rfl, hpos⟩
  · rintro ⟨h1, h2, h3⟩
    exact ⟨⟨pr.1, h1, Prod.ext rfl h2.symm⟩, h3⟩

theorem scoredParas_sublist (kw : List String) (paras : List String) :
    (scoredParas kw paras).Sublist
      (paras.map (fun para => (para, paraScore kw para))) :=
  List.filter_sublist _

theorem rankStep_of_scored {question : String} {paras : List String}
    (h : scoredParas (tokenize question) paras ≠ []) :
    rankStep question paras =
      ((sortDescBy Prod.snd (scoredParas (tokenize question) paras)).take 3).map
        Prod.fst := by
  simp only [rankStep]
  rw [if_neg h]

theorem rankStep_of_unscored {question : String} {paras : List String}
    (h : scoredParas (tokenize question) paras = []) :
    rankStep question paras = paras.take 3 := by
  simp only [rankStep]
  rw [h]
  simp

theorem take3_sorted_mem_scored {question : String} {paras : List String}
    {pr : String × Nat}
    (h : pr ∈ (sortDescBy Prod.snd (scoredParas (tokenize question) paras)).take 3) :
    pr ∈ scoredParas (tokenize question) paras :=
  (sortDescBy_perm Prod.snd _).mem_iff.mp ((List.take_sublist 3 _).subset h)

/-- C1: on a non-empty corpus and a question with at least one keyword
matching some paragraph (case-insensitive substring), the ranking step of
`/ask` returns at most 3 paragraphs, each scoring above 0, ordered by
score descending, and among equal scores the original corpus order is
preserved (the equal-score paragraphs of the output form a subsequence of
the corpus). -/
theorem c1_rank_top3_sorted_stable (question : String) (paras : List String)
    (hne : paras ≠ [])
    (hmatch : ∃ w ∈ tokenize question, ∃ p ∈ paras, pyIn w (pyLower p) = true) :
    (rankStep question paras).length ≤ 3 ∧
    (∀ p ∈ rankStep question paras, 0 < paraScore (tokenize question) p) ∧
    ((rankStep question paras).map (paraScore (tokenize question))).Pairwise
      (fun a b => b ≤ a) ∧
    ∀ s, ((rankStep question paras).filter
        (fun p => paraScore (tokenize question) p == s)).Sublist paras := by
  obtain ⟨w, hw, p, hp, hwin⟩ := hmatch
  have hpos : 0 < paraScore (tokenize question) p :=
    List.countP_pos_iff.mpr ⟨w, hw, hwin⟩
  have hmem : (p, paraScore (tokenize question) p) ∈
      scoredParas (tokenize question) paras :=
    mem_scoredParas.mpr ⟨hp, rfl, hpos⟩
  have hscne : scoredParas (tokenize question) paras ≠ [] := by
    intro h
    rw [h] at hmem
    exact List.not_mem_nil _ hmem
  have hrank := rankStep_of_scored hscne
  refine ⟨?_, ?_, ?_, ?_⟩
  · rw [hrank]
    simp only [List.length_map]
    exact List.length_take_le 3 _
  · intro q hq
    rw [hrank] at hq
    obtain ⟨pr, hpr, rfl⟩ := List.mem_map.mp hq
    obtain ⟨_, h2, h3⟩ := mem_scoredParas.mp (take3_sorted_mem_scored hpr)
    rw [← h2]
    exact h3
  · rw [hrank, List.map_map]
    have hcong :
        ((sortDescBy Prod.snd (scoredParas (tokenize question) paras)).take 3).map
            (paraScore (tokenize question) ∘ Prod.fst) =
          ((sortDescBy Prod.snd (scoredParas (tokenize question) paras)).take 3).map
            Prod.snd := by
      apply List.map_congr_left
      intro pr hpr
      obtain ⟨_, h2, _⟩ := mem_scoredParas.mp (take3_sorted_mem_scored hpr)
      exact h2.symm
    rw [hcong]
    exact List.pairwise_map.mpr
      ((sortDescBy_pairwise Prod.snd _).sublist (List.take_sublist 3 _))
  · intro s
    rw [hrank, List.filter_map]
    have hcong :
        ((sortDescBy Prod.snd (scoredParas (tokenize question) paras)).take 3).filter
            ((fun q => paraScore (tokenize question) q == s) ∘ Prod.fst) =
          ((sortDescBy Prod.snd (scoredParas (tokenize question) paras)).take 3).filter
            (fun z => z.2 == s) := by
      apply List.filter_congr
      intro pr hpr
      obtain ⟨_, h2, _⟩ := mem_scoredParas.mp (take3_sorted_mem_scored hpr)
      simp only [Function.comp_apply, ← h2]
    rw [hcong]
    have h1 : (((sortDescBy Prod.snd
          (scoredParas (tokenize question) paras)).take 3).filter
            (fun z => z.2 == s)).Sublist
          ((sortDescBy Prod.snd (scoredParas (tokenize question) paras)).filter
            (fun z => z.2 == s)) :=
      (List.take_sublist 3 _).filter _
    rw [sortDescBy_filter_key Prod.snd _ s] at h1
    have h2 : (((sortDescBy Prod.snd
          (scoredParas (tokenize question) paras)).take 3).filter
            (fun z => z.2 == s)).Sublist
          (paras.map (fun para => (para, paraScore (tokenize question) para))) :=
      h1.trans ((List.filter_sublist _).trans (scoredParas_sublist _ _))
    have h3 := h2.map Prod.fst
    rw [List.map_map] at h3
    have hid : (Prod.fst ∘ fun para : String =>
        (para, paraScore (tokenize question) para)) = id := rfl
    rw [hid, List.map_id] at h3
    exact h3

/-- C1 witness: the theorem instantiated at corpus `["cat"]`, question `"cat"`. -/
theorem c1_rank_top3_sorted_stable_witness :
    ((["cat"] : List String) ≠ [] ∧
      ∃ w ∈ tokenize "cat", ∃ p ∈ ["cat"], pyIn w (pyLower p) = true) ∧
    ((rankStep "cat" ["cat"]).length ≤ 3 ∧
      (∀ p ∈ rankStep "cat" ["cat"], 0 < paraScore (tokenize "cat") p) ∧
      ((rankStep "cat" ["cat"]).map (paraScore (tokenize "cat"))).Pairwise
        (fun a b => b ≤ a) ∧
      ∀ s, ((rankStep "cat" ["cat"]).filter
          (fun p => paraScore (tokenize "cat") p == s)).Sublist ["cat"]) :=
  ⟨⟨by decide, by decide⟩,
    c1_rank_top3_sorted_stable "cat" ["cat"] (by decide) (by decide)⟩

/-- C2: when no keyword of the question occurs in any paragraph (including
the empty question, which has no keywords), the ranking step returns the
first `min 3 |corpus|` paragraphs in stored order. -/
theorem c2_rank_fallback (question : String) (paras : List String)
    (hne : paras ≠ [])
    (hnone : ∀ w ∈ tokenize question, ∀ p ∈ paras, pyIn w (pyLower p) = false) :
    rankStep question paras = paras.take (min 3 paras.length) := by
  have hscore : ∀ p ∈ paras, paraScore (tokenize question) p = 0 := by
    intro p hp
    apply List.countP_eq_zero.mpr
    intro w hw
    simp [hnone w hw p hp]
  have hsc : scoredParas (tokenize question) paras = [] := by
    apply List.filter_eq_nil_iff.mpr
    intro x hx
    obtain ⟨q, hq, rfl⟩ := List.mem_map.mp hx
    simp [hscore q hq]
  rw [rankStep_of_unscored hsc]
  apply (List.take_eq_take).mpr
  omega

/-- C2 witness: question `"zzz"` against corpus `["a", "b"]`. -/
theorem c2_rank_fallback_witness :
    ((["a", "b"] : List String) ≠ [] ∧
      ∀ w ∈ tokenize "zzz", ∀ p ∈ ["a", "b"], pyIn w (pyLower p) = false) ∧
    rankStep "zzz" ["a", "b"] = ["a", "b"].take (min 3 (["a", "b"] : List String).length) :=
  ⟨⟨by decide, by decide⟩, c2_rank_fallback "zzz" ["a", "b"] (by decide) (by decide)⟩

/-- C3: on the corpus `["The cat sat.", "Dogs bark loudly.", "Cats and dogs play."]`
with question `"cat dog"`, the scores are 1, 1, 2 and the ranking step
returns exactly `["Cats and dogs play.", "The cat sat.", "Dogs bark loudly."]`,
the score-1 tie kept in corpus order. -/
theorem c3_example_corpus :
    (["The cat sat.", "Dogs bark loudly.", "Cats and dogs play."].map
        (paraScore (tokenize "cat dog"))) = [1, 1, 2] ∧
    rankStep "cat dog" ["The cat sat.", "Dogs bark loudly.", "Cats and dogs play."] =
      ["Cats and dogs play.", "The cat sat.", "Dogs bark loudly."] := by
  decide

/-! ### C4: what `/ask` persists and returns -/

theorem scoredParas_map_fst_sublist (kw : List String) (paras : List String) :
    ((scoredParas kw paras).map Prod.fst).Sublist paras := by
  have h := (scoredParas_sublist kw paras).map Prod.fst
  rw [List.map_map] at h
  have hid : (Prod.fst ∘ fun para : String => (para, paraScore kw para)) = id := rfl
  rw [hid, List.map_id] at h
  exact h

theorem rankStep_subperm (question : String) (paras : List String) :
    List.Subperm (rankStep question paras) paras := by
  by_cases h : scoredParas (tokenize question) paras = []
  · rw [rankStep_of_unscored h]
    exact (List.take_sublist 3 paras).subperm
  · rw [rankStep_of_scored h]
    have h1 : List.Subperm
        ((sortDescBy Prod.snd (scoredParas (tokenize question) paras)).take 3)
        (scoredParas (tokenize question) paras) :=
      ((List.take_sublist 3 _).subperm).trans (sortDescBy_perm Prod.snd _).subperm
    obtain ⟨l, hlp, hls⟩ := h1
    have h2 : List.Subperm
        (((sortDescBy Prod.snd (scoredParas (tokenize question) paras)).take 3).map
          Prod.fst)
        ((scoredParas (tokenize question) paras).map Prod.fst) :=
      ⟨l.map Prod.fst, hlp.map _, hls.map _⟩
    exact h2.trans (scoredParas_map_fst_sublist _ _).subperm

/-- C4 as stated is false: with corpus `["a", "a b"]` and question `"a b"`,
the successful ask returns `matched_paragraphs = ["a b", "a"]` (sorted by
score), which is not an order-preserving subsequence of the corpus. -/
theorem c4_counterexample :
    (ask_question (fun _ => .ok "ans") 5 "cccccccccccccccccccccccc"
        ⟨[⟨"u", 0, "a"⟩, ⟨"u", 1, "a b"⟩], [], []⟩ "a b" "u").1 =
      .ok ⟨"ans", ["a b", "a"]⟩ ∧
    corpusTexts ⟨[⟨"u", 0, "a"⟩, ⟨"u", 1, "a b"⟩], [], []⟩ "u" = ["a", "a b"] ∧
    ¬ List.Sublist ["a b", "a"]
        (corpusTexts ⟨[⟨"u", 0, "a"⟩, ⟨"u", 1, "a b"⟩], [], []⟩ "u") := by
  decide

/-- C4 amended: for every successful document-grounded ask, the
`matched_paragraphs` value persisted in the ChatRecord and returned to the
caller is a permutation of a subsequence (a selection, possibly reordered
by score) of the owner's stored corpus texts at the time of the query, and
the persisted record carries exactly the returned values. -/
theorem c4_matched_subperm (gen : String → Except String String) (now : Nat)
    (newId : String) (st : AppState) (question username : String)
    (res : AskResponse) (st' : AppState)
    (h : ask_question gen now newId st question username = (.ok res, st')) :
    List.Subperm res.matched_paragraphs (corpusTexts st (pyStrip username)) ∧
    st'.chats_col = st.chats_col ++
      [⟨newId, pyStrip username, pyStrip question, res.answer,
        res.matched_paragraphs, some now⟩] ∧
    st'.paragraphs_col = st.paragraphs_col := by
  simp only [ask_question] at h
  split at h
  · simp at h
  · split at h
    · simp at h
    · split at h
      · simp at h
      · rw [Prod.mk.injEq] at h
        obtain ⟨hres, hst⟩ := h
        rw [Except.ok.injEq] at hres
        subst hres
        subst hst
        exact ⟨rankStep_subperm _ _, rfl, rfl⟩

/-- C4 amended, witness: one-paragraph corpus, a model that answers "ans". -/
theorem c4_matched_subperm_witness :
    ask_question (fun _ => .ok "ans") 7 "dddddddddddddddddddddddd"
        ⟨[⟨"u", 0, "cat"⟩], [], []⟩ "cat" "u" =
      (.ok ⟨"ans", ["cat"]⟩,
        ⟨[⟨"u", 0, "cat"⟩],
          [⟨"dddddddddddddddddddddddd", "u", "cat", "ans", ["cat"], some 7⟩], []⟩) ∧
    (List.Subperm (["cat"] : List String)
        (corpusTexts ⟨[⟨"u", 0, "cat"⟩], [], []⟩ (pyStrip "u")) ∧
      (⟨[⟨"u", 0, "cat"⟩],
          [⟨"dddddddddddddddddddddddd", "u", "cat", "ans", ["cat"], some 7⟩],
          []⟩ : AppState).chats_col =
        ([] : List ChatRecord) ++
          [⟨"dddddddddddddddddddddddd", pyStrip "u", pyStrip "cat", "ans",
            ["cat"], some 7⟩] ∧
      (⟨[⟨"u", 0, "cat"⟩],
          [⟨"dddddddddddddddddddddddd", "u", "cat", "ans", ["cat"], some 7⟩],
          []⟩ : AppState).paragraphs_col = [⟨"u", 0, "cat"⟩]) :=
  ⟨by decide,
    c4_matched_subperm (fun _ => .ok "ans") 7 "dddddddddddddddddddddddd"
      ⟨[⟨"u", 0, "cat"⟩], [], []⟩ "cat" "u" ⟨"ans", ["cat"]⟩ _ (by decide)⟩

/-- C5: the claim says a failed upload validation leaves the corpus
unchanged, but app.py deletes the owner's paragraphs (line 47) before
checking for files (line 49): a request with a valid owner and no files
returns the validation error with the corpus already cleared. -/
theorem c5_upload_clears_before_validation :
    (upload_pdf "alice" none ⟨[⟨"alice", 0, "hello"⟩], [], []⟩).1 =
      .error (.validationErr "No files uploaded") ∧
    (upload_pdf "alice" none ⟨[⟨"alice", 0, "hello"⟩], [], []⟩).2.paragraphs_col =
      [] ∧
    (⟨[⟨"alice", 0, "hello"⟩], [], []⟩ : AppState).paragraphs_col ≠ [] := by
  decide

/-! ### C6: what `/upload` stores -/

theorem uploadDocs_username {u : String} {files : List (List String)}
    {d : ParaDoc} (h : d ∈ uploadDocs u files) : d.username = u := by
  simp only [uploadDocs, List.mem_flatMap, List.mem_map] at h
  obtain ⟨f, _, ip, _, rfl⟩ := h
  rfl

/-- C6 as stated is false: uploading two one-paragraph files stores two
paragraphs for the owner that both carry index 0, because `enumerate`
restarts per file (line 54). -/
theorem c6_counterexample :
    (upload_pdf "u" (some [["p"], ["q"]]) ⟨[], [], []⟩).1 =
      .ok "PDF uploaded and paragraphs stored successfully." ∧
    (upload_pdf "u" (some [["p"], ["q"]]) ⟨[], [], []⟩).2.paragraphs_col =
      [⟨"u", 0, "p"⟩, ⟨"u", 0, "q"⟩] ∧
    ¬ ((upload_pdf "u" (some [["p"], ["q"]]) ⟨[], [], []⟩).2.paragraphs_col.Pairwise
        (fun a b => a.username = b.username → a.index ≠ b.index)) := by
  decide

/-- C6 amended: after every successful upload the owner's corpus is exactly
the paragraphs of that upload (never a mix of two uploads, other owners
untouched), and each paragraph's index equals its extraction position
within its own file — so indices restart at 0 for every file and are
unique within the owner only when the upload carries a single file. -/
theorem c6_upload_replaces_single_file_indexing (username : String)
    (files : List (List String)) (st : AppState) (hu : username ≠ "") :
    (upload_pdf username (some files) st).1 =
      .ok "PDF uploaded and paragraphs stored successfully." ∧
    (upload_pdf username (some files) st).2.paragraphs_col.filter
        (fun d => d.username == username) = uploadDocs username files ∧
    (upload_pdf username (some files) st).2.paragraphs_col.filter
        (fun d => !(d.username == username)) =
      st.paragraphs_col.filter (fun d => !(d.username == username)) ∧
    (uploadDocs username files).map (fun d => d.index) =
      files.flatMap (fun f => List.range f.length) ∧
    ∀ f, files = [f] →
      (uploadDocs username files).Pairwise (fun a b => a.index ≠ b.index) := by
  have hred : upload_pdf username (some files) st =
      (.ok "PDF uploaded and paragraphs stored successfully.",
        { st with paragraphs_col :=
            st.paragraphs_col.filter (fun d => !(d.username == username)) ++
              uploadDocs username files }) := by
    simp only [upload_pdf]
    rw [if_neg hu]
  refine ⟨by rw [hred], ?_, ?_, ?_, ?_⟩
  · rw [hred]
    simp only [List.filter_append, List.filter_filter]
    have h1 : (st.paragraphs_col.filter
        (fun d => (d.username == username) && !(d.username == username))) = [] := by
      apply List.filter_eq_nil_iff.mpr
      intro d _
      simp
    rw [h1, List.nil_append]
    apply List.filter_eq_self.mpr
    intro d hd
    simp [uploadDocs_username hd]
  · rw [hred]
    simp only [List.filter_append, List.filter_filter]
    have h1 : (uploadDocs username files).filter
        (fun d => !(d.username == username)) = [] := by
      apply List.filter_eq_nil_iff.mpr
      intro d hd
      simp [uploadDocs_username hd]
    rw [h1, List.append_nil]
    apply List.filter_congr
    intro d _
    simp
  · simp only [uploadDocs, List.map_flatMap, List.map_map]
    have h : ∀ paras : List String,
        paras.enum.map ((fun d : ParaDoc => d.index) ∘
          (fun ip : Nat × String => ⟨username, ip.1, ip.2⟩)) =
          List.range paras.length := by
      intro paras
      exact List.enum_map_fst paras
    simp only [h]
  · intro f hf
    subst hf
    simp only [uploadDocs, List.flatMap_cons, List.flatMap_nil, List.append_nil]
    have h1 : (f.enum.map Prod.fst).Nodup := by
      rw [List.enum_map_fst]
      exact List.nodup_range f.length
    have h2 : f.enum.Pairwise (fun a b => a.1 ≠ b.1) := List.pairwise_map.mp h1
    exact List.pairwise_map.mpr h2

/-- C6 amended, witness: a single-file upload of two paragraphs. -/
theorem c6_upload_replaces_single_file_indexing_witness :
    ("w" : String) ≠ "" ∧
    ((upload_pdf "w" (some [["x", "y"]]) ⟨[], [], []⟩).1 =
      .ok "PDF uploaded and paragraphs stored successfully." ∧
    (upload_pdf "w" (some [["x", "y"]]) ⟨[], [], []⟩).2.paragraphs_col.filter
        (fun d => d.username == "w") = uploadDocs "w" [["x", "y"]] ∧
    (upload_pdf "w" (some [["x", "y"]]) ⟨[], [], []⟩).2.paragraphs_col.filter
        (fun d => !(d.username == "w")) =
      (⟨[], [], []⟩ : AppState).paragraphs_col.filter
        (fun d => !(d.username == "w")) ∧
    (uploadDocs "w" [["x", "y"]]).map (fun d => d.index) =
      [["x", "y"]].flatMap (fun f => List.range f.length) ∧
    ∀ f, [["x", "y"]] = [f] →
      (uploadDocs "w" [["x", "y"]]).Pairwise (fun a b => a.index ≠ b.index)) :=
  ⟨by decide,
    c6_upload_replaces_single_file_indexing "w" [["x", "y"]] ⟨[], [], []⟩
      (by decide)⟩

/-- C7: when the model call fails, neither `/ask` nor `/gemini_chat`
persists a record — the state is returned unchanged — and the error
surfaced is the model error carrying the upstream error text. -/
theorem c7_model_failure_no_persist (gen : String → Except String String)
    (now : Nat) (newId : String) (st : AppState) (question username e : String)
    (hgen : ∀ p, gen p = .error e)
    (hq : pyStrip question ≠ "") (hu : pyStrip username ≠ "") :
    (st.paragraphs_col.filter (fun d => d.username == pyStrip username) ≠ [] →
      ask_question gen now newId st question username =
        (.error (.modelErr e), st)) ∧
    gemini_chat gen now newId st question username =
      (.error (.modelErr e), st) := by
  constructor
  · intro hc
    simp only [ask_question]
    rw [if_neg (by rintro (h | h) <;> [exact hq h; exact hu h])]
    rw [if_neg hc, hgen]
  · simp only [gemini_chat]
    rw [if_neg (by rintro (h | h) <;> [exact hq h; exact hu h]), hgen]

/-- C7 witness: a model that always fails with "boom", one stored paragraph. -/
theorem c7_model_failure_no_persist_witness :
    (∀ p, (fun _ : String => (Except.error "boom" : Except String String)) p =
      .error "boom") ∧
    pyStrip "hi" ≠ "" ∧ pyStrip "u" ≠ "" ∧
    (((⟨[⟨"u", 0, "txt"⟩], [], []⟩ : AppState).paragraphs_col.filter
          (fun d => d.username == pyStrip "u") ≠ [] →
        ask_question (fun _ => .error "boom") 3 "eeeeeeeeeeeeeeeeeeeeeeee"
            ⟨[⟨"u", 0, "txt"⟩], [], []⟩ "hi" "u" =
          (.error (.modelErr "boom"), ⟨[⟨"u", 0, "txt"⟩], [], []⟩)) ∧
      gemini_chat (fun _ => .error "boom") 3 "eeeeeeeeeeeeeeeeeeeeeeee"
          ⟨[⟨"u", 0, "txt"⟩], [], []⟩ "hi" "u" =
        (.error (.modelErr "boom"), ⟨[⟨"u", 0, "txt"⟩], [], []⟩)) :=
  ⟨fun _ => rfl, by decide, by decide,
    c7_model_failure_no_persist (fun _ => .error "boom") 3
      "eeeeeeeeeeeeeeeeeeeeeeee" ⟨[⟨"u", 0, "txt"⟩], [], []⟩ "hi" "u" "boom"
      (fun _ => rfl) (by decide) (by decide)⟩

/-! ### C8: the merged history listing -/

/-- C8 as stated is false: `get("timestamp", 0)` treats a missing timestamp
as 0, so a record lacking a timestamp does not sort after a record whose
timestamp is 0 — the stable sort keeps the earlier-listed record first. -/
theorem c8_counterexample :
    get_history
        ⟨[], [⟨"aaaaaaaaaaaaaaaaaaaaaaaa", "u", "q1", "a1", [], none⟩,
              ⟨"bbbbbbbbbbbbbbbbbbbbbbbb", "u", "q2", "a2", [], some 0⟩], []⟩
        "u" =
      [.pdf ⟨"aaaaaaaaaaaaaaaaaaaaaaaa", "u", "q1", "a1", [], none⟩,
       .pdf ⟨"bbbbbbbbbbbbbbbbbbbbbbbb", "u", "q2", "a2", [], some 0⟩] ∧
    ¬ ((get_history
        ⟨[], [⟨"aaaaaaaaaaaaaaaaaaaaaaaa", "u", "q1", "a1", [], none⟩,
              ⟨"bbbbbbbbbbbbbbbbbbbbbbbb", "u", "q2", "a2", [], some 0⟩], []⟩
        "u").Pairwise (fun a b => a.ts = none → b.ts = none)) := by
  decide

/-- C8 amended: listing history returns the owner's records of both kinds,
each tagged with its kind, as a permutation of the tagged merge, sorted
descending by effective timestamp where a missing timestamp counts as 0 —
hence after every record with a positive timestamp — and stable: records
of equal effective timestamp keep the merged order (document records
before freeform ones, each in stored order). -/
theorem c8_history_sorted_effective_timestamp (st : AppState) (username : String) :
    (get_history st username).Perm (mergedHistory st username) ∧
    (get_history st username).Pairwise
      (fun a b => b.ts.getD 0 ≤ a.ts.getD 0) ∧
    ∀ t, (get_history st username).filter (fun e => e.ts.getD 0 == t) =
      (mergedHistory st username).filter (fun e => e.ts.getD 0 == t) :=
  ⟨sortDescBy_perm _ _, sortDescBy_pairwise _ _,
    fun t => sortDescBy_filter_key _ _ t⟩

/-! ### C9 and C10: the delete route -/

theorem deleteFromCol_notFound {α : Type u_1} [DecidableEq α] (getId : α → String)
    (chat_id : String) (col : List α)
    (hnomatch : ∀ r ∈ col, getId r ≠ pyLower chat_id)
    (hnoidx : ¬(pyIsDigit chat_id = true ∧ pyInt chat_id < col.length)) :
    deleteFromCol getId chat_id col = (.error .invalidIndex, col) ∨
      deleteFromCol getId chat_id col = (.error .chatNotFound, col) := by
  have hcond : ¬(isValidObjectId chat_id = true ∧
      col.any (fun r => getId r == pyLower chat_id) = true) := by
    rintro ⟨_, h2⟩
    obtain ⟨r, hr, hbeq⟩ := List.any_eq_true.mp h2
    exact hnomatch r hr (beq_iff_eq.mp hbeq)
  simp only [deleteFromCol]
  rw [if_neg hcond]
  by_cases hd : pyIsDigit chat_id = true
  · rw [if_pos hd]
    have hlen : ¬ pyInt chat_id <
        (sortAscBy (fun a b => idLt (getId a) (getId b)) col).length := by
      rw [sortAscBy_length]
      exact fun hlt => hnoidx ⟨hd, hlt⟩
    rw [dif_neg hlen]
    exact Or.inl rfl
  · rw [if_neg hd]
    exact Or.inr rfl

theorem deleteFromCol_positional {α : Type u_1} [DecidableEq α] (getId : α → String)
    (chat_id : String) (col : List α)
    (hd : pyIsDigit chat_id = true)
    (hno : ¬(isValidObjectId chat_id = true ∧ ∃ r ∈ col, getId r = pyLower chat_id))
    (hsorted : col.Pairwise (fun a b => idLt (getId a) (getId b) = true)) :
    (pyInt chat_id < col.length →
      deleteFromCol getId chat_id col = (.ok (), col.eraseIdx (pyInt chat_id))) ∧
    (col.length ≤ pyInt chat_id →
      deleteFromCol getId chat_id col = (.error .invalidIndex, col)) := by
  have hcond : ¬(isValidObjectId chat_id = true ∧
      col.any (fun r => getId r == pyLower chat_id) = true) := by
    rintro ⟨h1, h2⟩
    obtain ⟨r, hr, hbeq⟩ := List.any_eq_true.mp h2
    exact hno ⟨h1, r, hr, beq_iff_eq.mp hbeq⟩
  have hsorteq : sortAscBy (fun a b => idLt (getId a) (getId b)) col = col :=
    sortAscBy_eq_self (hsorted.imp (fun h => idLt_asymm h))
  have hne : col.Pairwise (fun a b => getId a ≠ getId b) :=
    hsorted.imp (fun h => ne_of_idLt h)
  simp only [deleteFromCol]
  rw [if_neg hcond, if_pos hd]
  constructor
  · intro hlt
    have hlt2 : pyInt chat_id <
        (sortAscBy (fun a b => idLt (getId a) (getId b)) col).length := by
      rw [sortAscBy_length]
      exact hlt
    rw [dif_pos hlt2]
    have hoget : (sortAscBy (fun a b => idLt (getId a) (getId b)) col).get
        ⟨pyInt chat_id, hlt2⟩ = col.get ⟨pyInt chat_id, hlt⟩ := by
      have h3 : (sortAscBy (fun a b => idLt (getId a) (getId b)) col)[pyInt chat_id]? =
          col[pyInt chat_id]? := by rw [hsorteq]
      rw [List.getElem?_eq_getElem hlt2, List.getElem?_eq_getElem hlt] at h3
      have h4 := Option.some.inj h3
      simpa [List.get_eq_getElem] using h4
    rw [hoget, erasePKeyEq getId col (pyInt chat_id) hlt hne]
  · intro hge
    have hge2 : ¬ pyInt chat_id <
        (sortAscBy (fun a b => idLt (getId a) (getId b)) col).length := by
      rw [sortAscBy_length]
      exact Nat.not_lt.mpr hge
    rw [dif_neg hge2]

/-- C9 as stated is false: `"000000000000000000000000"` is a well-formed
ObjectId present in no record, yet because it is also all digits the code
falls through to the positional path and deletes the record at position 0
instead of failing with NotFound. -/
theorem c9_counterexample :
    isValidObjectId "000000000000000000000000" = true ∧
    (∀ r ∈ (⟨[], [⟨"aaaaaaaaaaaaaaaaaaaaaaaa", "u", "q", "a", [], some 1⟩],
        []⟩ : AppState).chats_col, r.id ≠ "000000000000000000000000") ∧
    (delete_history ⟨[], [⟨"aaaaaaaaaaaaaaaaaaaaaaaa", "u", "q", "a", [], some 1⟩],
        []⟩ "pdf" "000000000000000000000000").1 = .ok () ∧
    (delete_history ⟨[], [⟨"aaaaaaaaaaaaaaaaaaaaaaaa", "u", "q", "a", [], some 1⟩],
        []⟩ "pdf" "000000000000000000000000").2.chats_col = [] := by
  decide

/-- C9 amended: deleting a well-formed record id that no record of either
kind carries fails with a NotFound error (either 404 of the route) and
leaves the state unchanged — provided the id is not an all-digit string
whose integer value is in range as a positional index into the kind's
collection; such an id instead deletes the record at that position. -/
theorem c9_stale_delete_not_found (st : AppState) (cid : String)
    (hvalid : isValidObjectId cid = true)
    (hp : ∀ r ∈ st.chats_col, r.id ≠ pyLower cid)
    (hg : ∀ r ∈ st.gemini_chats_col, r.id ≠ pyLower cid)
    (hip : ¬(pyIsDigit cid = true ∧ pyInt cid < st.chats_col.length))
    (hig : ¬(pyIsDigit cid = true ∧ pyInt cid < st.gemini_chats_col.length)) :
    (delete_history st "pdf" cid = (.error .invalidIndex, st) ∨
      delete_history st "pdf" cid = (.error .chatNotFound, st)) ∧
    (delete_history st "gemini" cid = (.error .invalidIndex, st) ∨
      delete_history st "gemini" cid = (.error .chatNotFound, st)) := by
  constructor
  · simp only [delete_history, if_pos rfl]
    rcases deleteFromCol_notFound ChatRecord.id cid st.chats_col hp hip with h | h <;>
      rw [h]
    · exact Or.inl rfl
    · exact Or.inr rfl
  · have hgp : ("gemini" : String) ≠ "pdf" := by decide
    simp only [delete_history, if_neg hgp, if_pos rfl]
    rcases deleteFromCol_notFound GeminiChatRecord.id cid st.gemini_chats_col hg
        hig with h | h <;> rw [h]
    · exact Or.inl rfl
    · exact Or.inr rfl

/-- A concrete two-kind store used to instantiate the delete theorems. -/
def stC9w : AppState :=
  ⟨[], [⟨"abcdefabcdefabcdefabcdef", "u1", "q1", "a1", [], some 1⟩],
    [⟨"0123456789abcdef01234567", "u2", "m2", "r2", some 2⟩]⟩

/-- C9 amended, witness: a well-formed, non-digit id matching no record. -/
theorem c9_stale_delete_not_found_witness :
    (isValidObjectId "ffffffffffffffffffffffff" = true ∧
      (∀ r ∈ stC9w.chats_col, r.id ≠ pyLower "ffffffffffffffffffffffff") ∧
      (∀ r ∈ stC9w.gemini_chats_col, r.id ≠ pyLower "ffffffffffffffffffffffff") ∧
      ¬(pyIsDigit "ffffffffffffffffffffffff" = true ∧
        pyInt "ffffffffffffffffffffffff" < stC9w.chats_col.length) ∧
      ¬(pyIsDigit "ffffffffffffffffffffffff" = true ∧
        pyInt "ffffffffffffffffffffffff" < stC9w.gemini_chats_col.length)) ∧
    ((delete_history stC9w "pdf" "ffffffffffffffffffffffff" =
        (.error .invalidIndex, stC9w) ∨
      delete_history stC9w "pdf" "ffffffffffffffffffffffff" =
        (.error .chatNotFound, stC9w)) ∧
      (delete_history stC9w "gemini" "ffffffffffffffffffffffff" =
        (.error .invalidIndex, stC9w) ∨
      delete_history stC9w "gemini" "ffffffffffffffffffffffff" =
        (.error .chatNotFound, stC9w))) :=
  ⟨⟨by decide, by decide, by decide, by decide, by decide⟩,
    c9_stale_delete_not_found stC9w "ffffffffffffffffffffffff" (by decide)
      (by decide) (by decide) (by decide) (by decide)⟩

/-- C10 as stated is false for all-digit identifiers that are also valid
ObjectIds: with one record of id `"000000000000000000000001"`, the
identifier `"000000000000000000000001"` has integer value 1 ≥ n = 1, so
the claim demands NotFound, but the ObjectId path matches and deletes the
record. -/
theorem c10_counterexample :
    pyIsDigit "000000000000000000000001" = true ∧
    pyInt "000000000000000000000001" = 1 ∧
    (⟨[], [⟨"000000000000000000000001", "u", "q", "a", [], some 1⟩], []⟩ :
        AppState).chats_col.length ≤ pyInt "000000000000000000000001" ∧
    (delete_history
        ⟨[], [⟨"000000000000000000000001", "u", "q", "a", [], some 1⟩], []⟩
        "pdf" "000000000000000000000001").1 = .ok () ∧
    (delete_history
        ⟨[], [⟨"000000000000000000000001", "u", "q", "a", [], some 1⟩], []⟩
        "pdf" "000000000000000000000001").2.chats_col = [] := by
  decide

/-- C10 amended: provided the all-digit identifier does not also match a
stored record as an ObjectId, the positional fallback resolves it against
all records of the chosen kind's collection — sorted by id, i.e. creation
order, with no filtering by owner — deleting exactly the record at that
global position when in range and failing with the NotFound-style index
error otherwise. -/
theorem c10_positional_delete_global (st : AppState) (cid : String)
    (hd : pyIsDigit cid = true)
    (hnop : ¬(isValidObjectId cid = true ∧ ∃ r ∈ st.chats_col, r.id = pyLower cid))
    (hnog : ¬(isValidObjectId cid = true ∧
      ∃ r ∈ st.gemini_chats_col, r.id = pyLower cid))
    (hsortp : st.chats_col.Pairwise (fun a b => idLt a.id b.id = true))
    (hsortg : st.gemini_chats_col.Pairwise (fun a b => idLt a.id b.id = true)) :
    ((pyInt cid < st.chats_col.length →
        delete_history st "pdf" cid =
          (.ok (), { st with chats_col := st.chats_col.eraseIdx (pyInt cid) })) ∧
      (st.chats_col.length ≤ pyInt cid →
        delete_history st "pdf" cid = (.error .invalidIndex, st))) ∧
    ((pyInt cid < st.gemini_chats_col.length →
        delete_history st "gemini" cid =
          (.ok (), { st with gemini_chats_col :=
            st.gemini_chats_col.eraseIdx (pyInt cid) })) ∧
      (st.gemini_chats_col.length ≤ pyInt cid →
        delete_history st "gemini" cid = (.error .invalidIndex, st))) := by
  obtain ⟨hp1, hp2⟩ :=
    deleteFromCol_positional ChatRecord.id cid st.chats_col hd hnop hsortp
  obtain ⟨hg1, hg2⟩ :=
    deleteFromCol_positional GeminiChatRecord.id cid st.gemini_chats_col hd
      hnog hsortg
  have hgp : ("gemini" : String) ≠ "pdf" := by decide
  refine ⟨⟨?_, ?_⟩, ?_, ?_⟩
  · intro h
    simp [delete_history, hp1 h]
  · intro h
    simp [delete_history, hp2 h]
  · intro h
    simp [delete_history, if_neg hgp, hg1 h]
  · intro h
    simp [delete_history, if_neg hgp, hg2 h]

/-- Two records of different owners, ids in creation order. -/
def stC10w : AppState :=
  ⟨[], [⟨"aaaaaaaaaaaaaaaaaaaaaaaa", "u1", "q1", "a1", [], some 1⟩,
        ⟨"bbbbbbbbbbbbbbbbbbbbbbbb", "u2", "q2", "a2", [], some 2⟩], []⟩

/-- C10 amended, witness: identifier `"0"` against a two-owner store. -/
theorem c10_positional_delete_global_witness :
    (pyIsDigit "0" = true ∧
      ¬(isValidObjectId "0" = true ∧ ∃ r ∈ stC10w.chats_col, r.id = pyLower "0") ∧
      ¬(isValidObjectId "0" = true ∧
        ∃ r ∈ stC10w.gemini_chats_col, r.id = pyLower "0") ∧
      stC10w.chats_col.Pairwise (fun a b => idLt a.id b.id = true) ∧
      stC10w.gemini_chats_col.Pairwise (fun a b => idLt a.id b.id = true)) ∧
    (((pyInt "0" < stC10w.chats_col.length →
        delete_history stC10w "pdf" "0" =
          (.ok (), { stC10w with
            chats_col := stC10w.chats_col.eraseIdx (pyInt "0") })) ∧
      (stC10w.chats_col.length ≤ pyInt "0" →
        delete_history stC10w "pdf" "0" = (.error .invalidIndex, stC10w))) ∧
      ((pyInt "0" < stC10w.gemini_chats_col.length →
        delete_history stC10w "gemini" "0" =
          (.ok (), { stC10w with gemini_chats_col :=
            stC10w.gemini_chats_col.eraseIdx (pyInt "0") })) ∧
      (stC10w.gemini_chats_col.length ≤ pyInt "0" →
        delete_history stC10w "gemini" "0" = (.error .invalidIndex, stC10w)))) :=
  ⟨⟨by decide, by decide, by decide, by decide, by decide⟩,
    c10_positional_delete_global stC10w "0" (by decide) (by decide) (by decide)
      (by decide) (by decide)⟩
